import Mathlib

/-
Verification of the `ValueStore` component
(src/src/LiveComponent/assets/src/Component/ValueStore.ts).

The store keeps three mapping layers (`props` — the original/confirmed
values, `dirtyProps` — local unsent edits, `pendingProps` — edits in
flight) over JavaScript-like values.  JavaScript objects are embedded as
association lists of string keys paired with values; every object carries
a numeric identity `oid` so that strict equality (`===`) on objects can be
modelled as reference identity.  Absent keys read as `undefined`, which is
a first-class value (`JSValue.undefined`).
-/

namespace UX

/-- A JavaScript value: `undefined`, `null`, booleans, numbers, strings and
objects.  An object carries an identity tag `oid` modelling its reference
identity, plus its fields as an association list. -/
inductive JSValue where
  | undefined : JSValue
  | null : JSValue
  | bool (b : Bool) : JSValue
  | num (n : Int) : JSValue
  | str (s : String) : JSValue
  | obj (oid : Nat) (fields : List (String × JSValue)) : JSValue

/-- A JavaScript object: ordered fields, keys unique in practice. -/
abbrev JSObject := List (String × JSValue)

/-- JavaScript strict equality `===`: structural on primitives, reference
identity (the `oid` tag) on objects. -/
def strictEq : JSValue → JSValue → Bool
  | .undefined, .undefined => true
  | .null, .null => true
  | .bool a, .bool b => a == b
  | .num a, .num b => a == b
  | .str a, .str b => a == b
  | .obj i _, .obj j _ => i == j
  | _, _ => false

/-- JavaScript `typeof v === 'object'`: true for objects and for `null`. -/
def typeofObject : JSValue → Bool
  | .null => true
  | .obj _ _ => true
  | _ => false

/-- Property read `o[k]` on an object's field list: the first binding of the
key, or `undefined` when the key is absent. -/
def objGet : JSObject → String → JSValue
  | [], _ => .undefined
  | p :: rest, k => if p.1 == k then p.2 else objGet rest k

/-- Whether the object has the key (JavaScript `k in o`). -/
def hasKey (o : JSObject) (k : String) : Bool :=
  o.any (fun p => p.1 == k)

/-- Property assignment `o[k] = v`: overwrites the first binding of the key
in place, appends the binding when the key is absent. -/
def objSet : JSObject → String → JSValue → JSObject
  | [], k, v => [(k, v)]
  | p :: rest, k, v => if p.1 == k then (k, v) :: rest else p :: objSet rest k v

/-- One entry of the first operand of a spread merge: its value is taken
from `b` when `b` also has the key. -/
def mergeEntry (b : JSObject) (p : String × JSValue) : String × JSValue :=
  if hasKey b p.1 then (p.1, objGet b p.1) else p

/-- Spread merge `\x7b...a, ...b\x7d`: keys of `a` first (taking `b`'s value when
`b` also has the key), then the keys of `b` absent from `a`. -/
def objMerge (a b : JSObject) : JSObject :=
  a.map (mergeEntry b) ++ b.filter (fun p => !hasKey a p.1)

/-- The fields of an object value, empty for non-objects. -/
def objFieldsOf : JSValue → JSObject
  | .obj _ fields => fields
  | _ => []

/-- Property read on an arbitrary value, as JavaScript evaluates it:
reading a property of `null` or `undefined` throws a `TypeError`; reading a
property of a primitive yields `undefined`. -/
def propAccess : JSValue → String → Except String JSValue
  | .null, _ => .error "TypeError"
  | .undefined, _ => .error "TypeError"
  | .obj _ fields, key => .ok (objGet fields key)
  | _, _ => .ok .undefined

/-- Character-level body of the name normalizer: `[` becomes `.`, `]` is
dropped, all other characters are kept. -/
def normalizeChars : List Char → List Char
  | [] => []
  | c :: rest =>
    if c = '[' then '.' :: normalizeChars rest
    else if c = ']' then normalizeChars rest
    else c :: normalizeChars rest

/-- Modelled from the spec: `normalizeModelName` (imported from
`string_utils`, not under `src/`) is contracted in the spec as a pure,
total, idempotent function converting bracketed path notation such as
`a[b][c]` into the dotted form `a.b.c`. -/
def normalizeModelName (model : String) : String :=
  String.mk (normalizeChars model.data)

/-- Splits a normalized path on the `.` separator. -/
def splitPathAux : List Char → List Char → List String
  | [], acc => [String.mk acc.reverse]
  | c :: rest, acc =>
    if c = '.' then String.mk acc.reverse :: splitPathAux rest []
    else splitPathAux rest (c :: acc)

/-- The segments of a dotted path. -/
def splitPath (path : String) : List String :=
  splitPathAux path.data []

/-- Walks the remaining path segments through nested objects; an absent or
non-object intermediate resolves to `undefined`. -/
def deepWalk : JSValue → List String → JSValue
  | v, [] => v
  | .obj _ fields, k :: rest => deepWalk (objGet fields k) rest
  | _, _ :: _ => .undefined

/-- Modelled from the spec: `getDeepData` (imported from
`data_manipulation_utils`, not under `src/`) is contracted in the spec as a
pure nested lookup that splits the normalized path on the separator `.`,
returns `undefined` (never throws) for absent intermediate keys, and
returns `null` as a result distinct from `undefined`. -/
def getDeepData (props : JSObject) (path : String) : JSValue :=
  match splitPath path with
  | [] => .undefined
  | k :: rest => deepWalk (objGet props k) rest

/-- The reserved identifier marker key (`identifierKey` field). -/
def identifierKey : String := "@id"

/-- `isPropNameTopLevel`: the key contains no `.` separator
(`key.indexOf('.') === -1`). -/
def isPropNameTopLevel (key : String) : Bool :=
  !(key.data.contains '.')

/-- The state of a `ValueStore`: original props, dirty props, pending
props. -/
structure ValueStore where
  props : JSObject
  dirtyProps : JSObject
  pendingProps : JSObject

/-- The constructor: initial props, empty dirty and pending maps. -/
def ValueStore.init (props : JSObject) : ValueStore :=
  ⟨props, [], []⟩

/-- `get(name)`: normalize the name; return the dirty entry if defined,
else the pending entry if defined, else resolve by deep lookup in the
original props — returning `null` unchanged, extracting the `@id` marker
of a top-level object value that carries one, and otherwise returning the
looked-up value. -/
def ValueStore.get (s : ValueStore) (name : String) : JSValue :=
  if !(strictEq (objGet s.dirtyProps (normalizeModelName name)) .undefined) then
    objGet s.dirtyProps (normalizeModelName name)
  else if !(strictEq (objGet s.pendingProps (normalizeModelName name)) .undefined) then
    objGet s.pendingProps (normalizeModelName name)
  else if strictEq .null (getDeepData s.props (normalizeModelName name)) then
    getDeepData s.props (normalizeModelName name)
  else if isPropNameTopLevel (normalizeModelName name)
      && typeofObject (getDeepData s.props (normalizeModelName name))
      && !(strictEq (objGet (objFieldsOf (getDeepData s.props (normalizeModelName name))) identifierKey) .undefined) then
    objGet (objFieldsOf (getDeepData s.props (normalizeModelName name))) identifierKey
  else
    getDeepData s.props (normalizeModelName name)

/-- `has(name)`: `this.get(name) !== undefined`. -/
def ValueStore.has (s : ValueStore) (name : String) : Bool :=
  !(strictEq (s.get name) .undefined)

/-- `set(name, value)`: normalize the name, read the current value via
`get`, return `false` without mutation when strictly equal, otherwise write
the value into the dirty map and return `true`. -/
def ValueStore.set (s : ValueStore) (name : String) (value : JSValue) : Bool × ValueStore :=
  if strictEq (s.get (normalizeModelName name)) value then (false, s)
  else (true, { s with dirtyProps := objSet s.dirtyProps (normalizeModelName name) value })

/-- `getOriginalProps()`: a shallow copy of the original props. -/
def ValueStore.getOriginalProps (s : ValueStore) : JSObject :=
  s.props

/-- `getDirtyProps()`: a shallow copy of the dirty props. -/
def ValueStore.getDirtyProps (s : ValueStore) : JSObject :=
  s.dirtyProps

/-- `flushDirtyPropsToPending()`: pending becomes a copy of dirty, dirty is
emptied. -/
def ValueStore.flushDirtyPropsToPending (s : ValueStore) : ValueStore :=
  { s with pendingProps := s.dirtyProps, dirtyProps := [] }

/-- `reinitializeAllProps(props)`: original props are replaced wholesale,
pending is emptied, dirty is untouched. -/
def ValueStore.reinitializeAllProps (s : ValueStore) (props : JSObject) : ValueStore :=
  { s with props := props, pendingProps := [] }

/-- `pushPendingPropsBackToDirty()`: dirty becomes the spread merge
`\x7b...pending, ...dirty\x7d` (dirty entries win), pending is emptied. -/
def ValueStore.pushPendingPropsBackToDirty (s : ValueStore) : ValueStore :=
  { s with dirtyProps := objMerge s.pendingProps s.dirtyProps, pendingProps := [] }

/-- `findIdentifier(value)`: return the value itself unless it is an
object-typed value whose `@id` property is defined, in which case return
that property.  The property read goes through `propAccess`, so a `null`
value (which is object-typed in JavaScript) throws. -/
def findIdentifier (value : JSValue) : Except String JSValue :=
  if !(typeofObject value) then .ok value
  else
    match propAccess value identifierKey with
    | .error e => .error e
    | .ok idv => if strictEq idv .undefined then .ok value else .ok idv

/-- The loop body of `reinitializeProvidedProps`: for each patch entry,
compare the currently resolved value (`this.get(key)`) with the patch
value's identifier; on a difference overwrite `props[key]` with the patch
value and set the changed flag. -/
def reinitLoop (s : ValueStore) (changed : Bool) :
    List (String × JSValue) → Except String (Bool × ValueStore)
  | [] => .ok (changed, s)
  | (key, value) :: rest =>
    match findIdentifier value with
    | .error e => .error e
    | .ok newIdentifier =>
      if strictEq (s.get key) newIdentifier then
        reinitLoop s changed rest
      else
        reinitLoop { s with props := objSet s.props key value } true rest

/-- `reinitializeProvidedProps(props)`: run the loop over the patch entries
with the changed flag initially `false`. -/
def ValueStore.reinitializeProvidedProps (s : ValueStore) (patch : List (String × JSValue)) :
    Except String (Bool × ValueStore) :=
  reinitLoop s false patch

/-- Whether processing the patch overwrites at least one key: `true` as
soon as an entry's identifier differs from the currently resolved value. -/
def anyOverwrite (s : ValueStore) : List (String × JSValue) → Bool
  | [] => false
  | (key, value) :: rest =>
    match findIdentifier value with
    | .error _ => false
    | .ok newIdentifier =>
      if strictEq (s.get key) newIdentifier then anyOverwrite s rest
      else true

/-- The original-tier tail of `get`: deep lookup in the original props,
returning `null` unchanged and extracting the `@id` marker of a top-level
object value that carries one. -/
def originalResolve (props : JSObject) (n : String) : JSValue :=
  if strictEq .null (getDeepData props n) then
    getDeepData props n
  else if isPropNameTopLevel n
      && typeofObject (getDeepData props n)
      && !(strictEq (objGet (objFieldsOf (getDeepData props n)) identifierKey) .undefined) then
    objGet (objFieldsOf (getDeepData props n)) identifierKey
  else
    getDeepData props n

/-- States reachable from construction by the store's operations. -/
inductive Reachable : ValueStore → Prop where
  | init (props : JSObject) : Reachable (ValueStore.init props)
  | stepSet (s : ValueStore) (name : String) (v : JSValue) :
      Reachable s → Reachable (s.set name v).2
  | stepFlush (s : ValueStore) :
      Reachable s → Reachable s.flushDirtyPropsToPending
  | stepReinitAll (s : ValueStore) (props : JSObject) :
      Reachable s → Reachable (s.reinitializeAllProps props)
  | stepPushBack (s : ValueStore) :
      Reachable s → Reachable s.pushPendingPropsBackToDirty
  | stepReinitProvided (s : ValueStore) (patch : List (String × JSValue))
      (c : Bool) (s' : ValueStore) :
      Reachable s → s.reinitializeProvidedProps patch = .ok (c, s') → Reachable s'

/-! ### Basic lemmas about values and objects -/

theorem strictEq_refl (v : JSValue) : strictEq v v = true := by
  cases v <;> simp [strictEq]

theorem strictEq_undefined_iff (v : JSValue) : strictEq v .undefined = true ↔ v = .undefined := by
  cases v <;> simp [strictEq]

theorem strictEq_undefined_false_iff (v : JSValue) : strictEq v .undefined = false ↔ v ≠ .undefined := by
  cases v <;> simp [strictEq]

theorem objGet_eq_undef_of_hasKey_false (o : JSObject) (k : String)
    (h : hasKey o k = false) : objGet o k = .undefined := by
  induction o with
  | nil => rfl
  | cons p rest ih =>
    simp only [hasKey, List.any_cons, Bool.or_eq_false_iff] at h
    simp only [objGet, h.1, if_false]
    exact ih (by simp [hasKey, h.2])

theorem hasKey_of_objGet_ne_undefined (o : JSObject) (k : String)
    (h : strictEq (objGet o k) .undefined = false) : hasKey o k = true := by
  by_contra hc
  rw [Bool.not_eq_true] at hc
  rw [objGet_eq_undef_of_hasKey_false o k hc] at h
  simp [strictEq] at h

theorem hasKey_cons (p : String × JSValue) (rest : JSObject) (k : String) :
    hasKey (p :: rest) k = (p.1 == k || hasKey rest k) :=
  rfl

theorem objGet_cons (p : String × JSValue) (rest : JSObject) (k : String) :
    objGet (p :: rest) k = if p.1 == k then p.2 else objGet rest k :=
  rfl

theorem mergeEntry_fst (b : JSObject) (p : String × JSValue) :
    (mergeEntry b p).1 = p.1 := by
  unfold mergeEntry; split <;> rfl

theorem mergeEntry_snd (b : JSObject) (p : String × JSValue) :
    (mergeEntry b p).2 = if hasKey b p.1 then objGet b p.1 else p.2 := by
  unfold mergeEntry; split <;> simp_all

theorem objGet_append (xs ys : JSObject) (k : String) :
    objGet (xs ++ ys) k = if hasKey xs k then objGet xs k else objGet ys k := by
  induction xs with
  | nil => simp [hasKey, objGet]
  | cons p rest ih =>
    rw [List.cons_append, objGet_cons, objGet_cons, hasKey_cons]
    by_cases h : (p.1 == k) = true
    · simp [h]
    · rw [Bool.not_eq_true] at h
      simp [h, ih]

theorem hasKey_mergeMap (a b : JSObject) (k : String) :
    hasKey (a.map (mergeEntry b)) k = hasKey a k := by
  induction a with
  | nil => rfl
  | cons p rest ih =>
    rw [List.map_cons, hasKey_cons, hasKey_cons, mergeEntry_fst, ih]

theorem objGet_mergeMap (a b : JSObject) (k : String) :
    objGet (a.map (mergeEntry b)) k
      = if hasKey a k then (if hasKey b k then objGet b k else objGet a k) else .undefined := by
  induction a with
  | nil => by_cases hb : hasKey b k <;> simp [objGet, hasKey, hb]
  | cons p rest ih =>
    rw [List.map_cons, objGet_cons, objGet_cons, hasKey_cons, mergeEntry_fst]
    by_cases h : (p.1 == k) = true
    · have hpk : p.1 = k := by simpa using h
      rw [mergeEntry_snd, hpk]
      simp [h]
    · rw [Bool.not_eq_true] at h
      simp [h, ih]

theorem objGet_filter_not_hasKey (a b : JSObject) (k : String)
    (h : hasKey a k = false) :
    objGet (b.filter (fun p => !hasKey a p.1)) k = objGet b k := by
  induction b with
  | nil => rfl
  | cons p rest ih =>
    rw [List.filter_cons, objGet_cons]
    by_cases hpk : (p.1 == k) = true
    · have hk : p.1 = k := by simpa using hpk
      have ha : hasKey a p.1 = false := hk ▸ h
      simp [ha, objGet_cons, hpk]
    · rw [Bool.not_eq_true] at hpk
      by_cases ha : hasKey a p.1 = true
      · simp [ha, hpk, ih]
      · rw [Bool.not_eq_true] at ha
        simp [ha, objGet_cons, hpk, ih]

theorem objGet_objMerge (a b : JSObject) (k : String) :
    objGet (objMerge a b) k = if hasKey b k then objGet b k else objGet a k := by
  unfold objMerge
  rw [objGet_append, hasKey_mergeMap, objGet_mergeMap]
  by_cases ha : hasKey a k
  · simp [ha]
  · simp only [Bool.not_eq_true] at ha
    rw [objGet_filter_not_hasKey a b k ha]
    by_cases hb : hasKey b k
    · simp [ha, hb]
    · simp only [Bool.not_eq_true] at hb
      simp [ha, hb, objGet_eq_undef_of_hasKey_false a k ha,
        objGet_eq_undef_of_hasKey_false b k hb]

/-! ### The normalizer is idempotent -/

theorem normalizeChars_cons (c : Char) (rest : List Char) :
    normalizeChars (c :: rest) =
      if c = '[' then '.' :: normalizeChars rest
      else if c = ']' then normalizeChars rest
      else c :: normalizeChars rest :=
  rfl

theorem normalizeChars_idem (l : List Char) :
    normalizeChars (normalizeChars l) = normalizeChars l := by
  induction l with
  | nil => rfl
  | cons c rest ih =>
    rw [normalizeChars_cons]
    by_cases h1 : c = '['
    · rw [if_pos h1, normalizeChars_cons, if_neg (by decide), if_neg (by decide), ih]
    · rw [if_neg h1]
      by_cases h2 : c = ']'
      · rw [if_pos h2]
        exact ih
      · rw [if_neg h2, normalizeChars_cons, if_neg h1, if_neg h2, ih]

theorem normalizeModelName_idem (m : String) :
    normalizeModelName (normalizeModelName m) = normalizeModelName m :=
  congrArg String.mk (normalizeChars_idem m.data)

/-! ### Characterizing `get` -/

theorem get_dirty_hit (s : ValueStore) (name : String)
    (h : strictEq (objGet s.dirtyProps (normalizeModelName name)) .undefined = false) :
    s.get name = objGet s.dirtyProps (normalizeModelName name) := by
  unfold ValueStore.get
  rw [h]
  rfl

theorem get_pending_hit (s : ValueStore) (name : String)
    (h1 : strictEq (objGet s.dirtyProps (normalizeModelName name)) .undefined = true)
    (h2 : strictEq (objGet s.pendingProps (normalizeModelName name)) .undefined = false) :
    s.get name = objGet s.pendingProps (normalizeModelName name) := by
  unfold ValueStore.get
  rw [h1, h2]
  rfl

theorem get_original_tier (s : ValueStore) (name : String)
    (h1 : strictEq (objGet s.dirtyProps (normalizeModelName name)) .undefined = true)
    (h2 : strictEq (objGet s.pendingProps (normalizeModelName name)) .undefined = true) :
    s.get name = originalResolve s.props (normalizeModelName name) := by
  unfold ValueStore.get originalResolve
  rw [h1, h2]
  rfl

theorem originalResolve_null (props : JSObject) (n : String)
    (h : getDeepData props n = .null) :
    originalResolve props n = .null := by
  unfold originalResolve
  rw [h]
  rfl

theorem originalResolve_undefined (props : JSObject) (n : String)
    (h : getDeepData props n = .undefined) :
    originalResolve props n = .undefined := by
  unfold originalResolve
  rw [h]
  simp [strictEq, typeofObject]

theorem get_extracts_from_original (s : ValueStore) (name : String)
    (oid : Nat) (fields : JSObject)
    (hd : objGet s.dirtyProps (normalizeModelName name) = .undefined)
    (hp : objGet s.pendingProps (normalizeModelName name) = .undefined)
    (htop : isPropNameTopLevel (normalizeModelName name) = true)
    (hv : getDeepData s.props (normalizeModelName name) = .obj oid fields)
    (hne : strictEq (objGet fields identifierKey) .undefined = false) :
    s.get name = objGet fields identifierKey := by
  have h1 : strictEq (objGet s.dirtyProps (normalizeModelName name)) .undefined = true := by
    rw [hd]; rfl
  have h2 : strictEq (objGet s.pendingProps (normalizeModelName name)) .undefined = true := by
    rw [hp]; rfl
  rw [get_original_tier s name h1 h2]
  unfold originalResolve
  rw [hv]
  rw [show objFieldsOf (JSValue.obj oid fields) = fields from rfl]
  rw [show strictEq JSValue.null (JSValue.obj oid fields) = false from rfl]
  rw [show typeofObject (JSValue.obj oid fields) = true from rfl]
  rw [htop, hne]
  rfl

/-! ### Lemmas about the `reinitializeProvidedProps` loop -/

theorem reinitLoop_true_mono :
    ∀ (patch : List (String × JSValue)) (s : ValueStore) (c : Bool) (s' : ValueStore),
      reinitLoop s true patch = .ok (c, s') → c = true := by
  intro patch
  induction patch with
  | nil =>
    intro s c s' h
    simp [reinitLoop] at h
    exact h.1
  | cons kv rest ih =>
    intro s c s' h
    obtain ⟨key, value⟩ := kv
    cases hf : findIdentifier value with
    | error e =>
      simp only [reinitLoop, hf] at h
      exact Except.noConfusion h
    | ok newId =>
      simp only [reinitLoop, hf] at h
      by_cases hc : strictEq (s.get key) newId = true
      · rw [if_pos hc] at h
        exact ih s c s' h
      · rw [if_neg hc] at h
        exact ih _ c s' h

theorem reinitLoop_changed_eq :
    ∀ (patch : List (String × JSValue)) (s : ValueStore) (changed c : Bool) (s' : ValueStore),
      reinitLoop s changed patch = .ok (c, s') → c = (changed || anyOverwrite s patch) := by
  intro patch
  induction patch with
  | nil =>
    intro s changed c s' h
    simp [reinitLoop] at h
    simp [anyOverwrite, h.1]
  | cons kv rest ih =>
    intro s changed c s' h
    obtain ⟨key, value⟩ := kv
    cases hf : findIdentifier value with
    | error e =>
      simp only [reinitLoop, hf] at h
      exact Except.noConfusion h
    | ok newId =>
      simp only [reinitLoop, hf] at h
      simp only [anyOverwrite, hf]
      by_cases hc : strictEq (s.get key) newId = true
      · rw [if_pos hc] at h
        rw [if_pos hc]
        exact ih s changed c s' h
      · rw [if_neg hc] at h
        rw [if_neg hc]
        rw [reinitLoop_true_mono rest _ c s' h, Bool.or_true]

/-! ### Claim theorems -/

/-- C1: `get` resolves with precedence dirty, then pending, then nested-path
lookup in the original props: a defined dirty entry for the normalized name
is returned first, otherwise a defined pending entry, otherwise the deep
lookup in the original props decides the result; and `get` returns
`undefined` when the name resolves at none of the three tiers. -/
theorem get_three_tier_precedence (s : ValueStore) (name : String) :
    (strictEq (objGet s.dirtyProps (normalizeModelName name)) .undefined = false →
      s.get name = objGet s.dirtyProps (normalizeModelName name))
    ∧ (strictEq (objGet s.dirtyProps (normalizeModelName name)) .undefined = true →
        strictEq (objGet s.pendingProps (normalizeModelName name)) .undefined = false →
        s.get name = objGet s.pendingProps (normalizeModelName name))
    ∧ (strictEq (objGet s.dirtyProps (normalizeModelName name)) .undefined = true →
        strictEq (objGet s.pendingProps (normalizeModelName name)) .undefined = true →
        s.get name = originalResolve s.props (normalizeModelName name))
    ∧ (strictEq (objGet s.dirtyProps (normalizeModelName name)) .undefined = true →
        strictEq (objGet s.pendingProps (normalizeModelName name)) .undefined = true →
        getDeepData s.props (normalizeModelName name) = .undefined →
        s.get name = .undefined) := by
  refine ⟨get_dirty_hit s name, get_pending_hit s name, get_original_tier s name, ?_⟩
  intro h1 h2 h3
  rw [get_original_tier s name h1 h2]
  exact originalResolve_undefined s.props (normalizeModelName name) h3

/-- Witness for C1: on a store whose pending map holds `a ↦ 2` and whose
original props hold `a ↦ 3`, `get("a")` returns the pending value `2`. -/
theorem get_three_tier_precedence_witness :
    (⟨[("a", JSValue.num 3)], [], [("a", JSValue.num 2)]⟩ : ValueStore).get "a"
      = JSValue.num 2 :=
  (get_three_tier_precedence ⟨[("a", JSValue.num 3)], [], [("a", JSValue.num 2)]⟩ "a").2.1
    rfl rfl

/-- C2 counterexample: with the dirty map holding
`user ↦ \x7b"@id": 123, "firstName": "Ryan"\x7d`, `get("user")` returns the full
object, not the marker value `123` — the identifier extraction is not
applied to values resolved from the dirty tier. -/
theorem get_no_extraction_from_dirty_counterexample :
    (⟨[], [("user", JSValue.obj 7 [("@id", JSValue.num 123), ("firstName", JSValue.str "Ryan")])],
        []⟩ : ValueStore).get "user"
        = JSValue.obj 7 [("@id", JSValue.num 123), ("firstName", JSValue.str "Ryan")]
      ∧ (⟨[], [("user", JSValue.obj 7 [("@id", JSValue.num 123), ("firstName", JSValue.str "Ryan")])],
          []⟩ : ValueStore).get "user" ≠ JSValue.num 123 :=
  ⟨rfl, fun h => JSValue.noConfusion h⟩

/-- C2 amended: for a top-level name, the identifier-marker extraction is
applied only when the value is resolved from the original tier (dirty and
pending undefined at the normalized name); values resolved from the dirty
or pending tiers are returned as-is. -/
theorem get_identifier_extraction_original_only (s : ValueStore) (name : String) :
    (∀ (oid : Nat) (fields : JSObject),
      objGet s.dirtyProps (normalizeModelName name) = .undefined →
      objGet s.pendingProps (normalizeModelName name) = .undefined →
      isPropNameTopLevel (normalizeModelName name) = true →
      getDeepData s.props (normalizeModelName name) = .obj oid fields →
      strictEq (objGet fields identifierKey) .undefined = false →
      s.get name = objGet fields identifierKey)
    ∧ (strictEq (objGet s.dirtyProps (normalizeModelName name)) .undefined = false →
        s.get name = objGet s.dirtyProps (normalizeModelName name))
    ∧ (strictEq (objGet s.dirtyProps (normalizeModelName name)) .undefined = true →
        strictEq (objGet s.pendingProps (normalizeModelName name)) .undefined = false →
        s.get name = objGet s.pendingProps (normalizeModelName name)) :=
  ⟨fun oid fields hd hp htop hv hne =>
    get_extracts_from_original s name oid fields hd hp htop hv hne,
  get_dirty_hit s name,
  get_pending_hit s name⟩

/-- Witness for amended C2: with original props
`user ↦ \x7b"@id": 123, "firstName": "Ryan"\x7d`, `get("user")` returns `123`. -/
theorem get_identifier_extraction_original_only_witness :
    (⟨[("user", JSValue.obj 1 [("@id", JSValue.num 123), ("firstName", JSValue.str "Ryan")])],
        [], []⟩ : ValueStore).get "user" = JSValue.num 123 :=
  (get_identifier_extraction_original_only
      ⟨[("user", JSValue.obj 1 [("@id", JSValue.num 123), ("firstName", JSValue.str "Ryan")])],
        [], []⟩ "user").1
    1 [("@id", JSValue.num 123), ("firstName", JSValue.str "Ryan")] rfl rfl rfl rfl rfl

/-- C3: `set` compares the new value by strict equality with the value
`get` currently resolves for the normalized name; on equality it returns
`false` and mutates nothing, otherwise it writes the value into the dirty
map under the normalized name, returns `true`, and leaves the pending and
original maps unmodified. -/
theorem set_strict_equality_spec (s : ValueStore) (name : String) (v : JSValue) :
    (strictEq (s.get (normalizeModelName name)) v = true →
      s.set name v = (false, s))
    ∧ (strictEq (s.get (normalizeModelName name)) v = false →
      s.set name v
        = (true, { s with dirtyProps := objSet s.dirtyProps (normalizeModelName name) v })) := by
  constructor
  · intro h
    unfold ValueStore.set
    rw [h]
    rfl
  · intro h
    unfold ValueStore.set
    rw [h]
    rfl

/-- Witness for C3: on the empty store, `set("a", 1)` reports a change and
writes the dirty entry `a ↦ 1`. -/
theorem set_strict_equality_spec_witness :
    ValueStore.set ⟨[], [], []⟩ "a" (JSValue.num 1)
      = (true, ⟨[], [("a", JSValue.num 1)], []⟩) :=
  (set_strict_equality_spec ⟨[], [], []⟩ "a" (JSValue.num 1)).2 rfl

/-- C4: `flushDirtyPropsToPending` copies the dirty map into pending and
empties dirty; a subsequent `reinitializeAllProps(newProps)` replaces the
original props wholesale, empties pending, and leaves the dirty map exactly
as it was; in particular from dirty `\x7ba: 1, b: 2\x7d`, after flushing and
reinitializing with `\x7ba: 1, b: 2, c: 3\x7d`, dirty and pending are empty and
`get("c")` returns `3`. -/
theorem flush_then_reinitialize_spec (s : ValueStore) (newProps : JSObject) :
    s.flushDirtyPropsToPending.pendingProps = s.dirtyProps
    ∧ s.flushDirtyPropsToPending.dirtyProps = []
    ∧ (s.reinitializeAllProps newProps).props = newProps
    ∧ (s.reinitializeAllProps newProps).pendingProps = []
    ∧ (s.reinitializeAllProps newProps).dirtyProps = s.dirtyProps
    ∧ ((⟨[], [("a", JSValue.num 1), ("b", JSValue.num 2)], []⟩ :
          ValueStore).flushDirtyPropsToPending.reinitializeAllProps
          [("a", JSValue.num 1), ("b", JSValue.num 2), ("c", JSValue.num 3)]).dirtyProps = []
    ∧ ((⟨[], [("a", JSValue.num 1), ("b", JSValue.num 2)], []⟩ :
          ValueStore).flushDirtyPropsToPending.reinitializeAllProps
          [("a", JSValue.num 1), ("b", JSValue.num 2), ("c", JSValue.num 3)]).pendingProps = []
    ∧ ((⟨[], [("a", JSValue.num 1), ("b", JSValue.num 2)], []⟩ :
          ValueStore).flushDirtyPropsToPending.reinitializeAllProps
          [("a", JSValue.num 1), ("b", JSValue.num 2), ("c", JSValue.num 3)]).get "c"
        = JSValue.num 3 :=
  ⟨rfl, rfl, rfl, rfl, rfl, rfl, rfl, rfl⟩

/-- C5: `pushPendingPropsBackToDirty` merges pending into dirty with dirty
entries winning (a key already present in dirty keeps its dirty value, a
key absent from dirty receives its pending value) and empties pending; in
particular from dirty `\x7ba: 2\x7d` and pending `\x7ba: 1\x7d`, afterwards dirty is
`\x7ba: 2\x7d` and pending is empty. -/
theorem pushPendingPropsBackToDirty_spec (s : ValueStore) (k : String) :
    s.pushPendingPropsBackToDirty.pendingProps = []
    ∧ (hasKey s.dirtyProps k = true →
        objGet s.pushPendingPropsBackToDirty.dirtyProps k = objGet s.dirtyProps k)
    ∧ (hasKey s.dirtyProps k = false →
        objGet s.pushPendingPropsBackToDirty.dirtyProps k = objGet s.pendingProps k)
    ∧ (⟨[], [("a", JSValue.num 2)], [("a", JSValue.num 1)]⟩ :
        ValueStore).pushPendingPropsBackToDirty.dirtyProps = [("a", JSValue.num 2)]
    ∧ (⟨[], [("a", JSValue.num 2)], [("a", JSValue.num 1)]⟩ :
        ValueStore).pushPendingPropsBackToDirty.pendingProps = [] := by
  refine ⟨rfl, ?_, ?_, rfl, rfl⟩
  · intro h
    show objGet (objMerge s.pendingProps s.dirtyProps) k = _
    rw [objGet_objMerge, if_pos h]
  · intro h
    show objGet (objMerge s.pendingProps s.dirtyProps) k = _
    rw [objGet_objMerge, if_neg (by rw [h]; exact Bool.false_ne_true)]

/-- Witness for C5: on the store with dirty `\x7ba: 2\x7d` and pending `\x7ba: 1\x7d`,
the merged dirty map keeps the dirty value for `a`. -/
theorem pushPendingPropsBackToDirty_spec_witness :
    objGet (⟨[], [("a", JSValue.num 2)], [("a", JSValue.num 1)]⟩ :
        ValueStore).pushPendingPropsBackToDirty.dirtyProps "a"
      = objGet [("a", JSValue.num 2)] "a" :=
  (pushPendingPropsBackToDirty_spec
      ⟨[], [("a", JSValue.num 2)], [("a", JSValue.num 1)]⟩ "a").2.1 rfl

/-- C6: `reinitializeProvidedProps` processes each patch entry by comparing
the currently resolved value (`get`, which performs the identifier
extraction) with the identifier `findIdentifier` extracts from the patch
value; on a difference it overwrites `props[key]` wholesale with the patch
value, on a match it leaves the store untouched for that entry; and the
returned flag is `true` exactly when at least one entry was overwritten. -/
theorem reinitializeProvidedProps_spec (s : ValueStore) :
    (∀ (changed : Bool) (key : String) (value : JSValue)
        (rest : List (String × JSValue)) (newIdentifier : JSValue),
      findIdentifier value = .ok newIdentifier →
      strictEq (s.get key) newIdentifier = true →
      reinitLoop s changed ((key, value) :: rest) = reinitLoop s changed rest)
    ∧ (∀ (changed : Bool) (key : String) (value : JSValue)
        (rest : List (String × JSValue)) (newIdentifier : JSValue),
      findIdentifier value = .ok newIdentifier →
      strictEq (s.get key) newIdentifier = false →
      reinitLoop s changed ((key, value) :: rest)
        = reinitLoop { s with props := objSet s.props key value } true rest)
    ∧ (∀ (patch : List (String × JSValue)) (c : Bool) (s' : ValueStore),
        s.reinitializeProvidedProps patch = .ok (c, s') →
        c = anyOverwrite s patch) := by
  refine ⟨?_, ?_, ?_⟩
  · intro changed key value rest newId hf hc
    simp only [reinitLoop, hf]
    rw [if_pos hc]
  · intro changed key value rest newId hf hc
    simp only [reinitLoop, hf]
    rw [if_neg (by rw [hc]; exact Bool.false_ne_true)]
  · intro patch c s' h
    have hc := reinitLoop_changed_eq patch s false c s' h
    simpa using hc

/-- Witness for C6 (the spec's P7 scenario): original props hold
`user ↦ \x7b"@id": 123, "firstName": "Ryan"\x7d` and the patch supplies
`user ↦ \x7b"@id": 456, "firstName": "Kevin"\x7d`; the identifiers differ, so the
entry is overwritten wholesale and the call reports a change. -/
theorem reinitializeProvidedProps_spec_witness :
    (⟨[("user", JSValue.obj 1 [("@id", JSValue.num 123), ("firstName", JSValue.str "Ryan")])],
        [], []⟩ : ValueStore).reinitializeProvidedProps
        [("user", JSValue.obj 2 [("@id", JSValue.num 456), ("firstName", JSValue.str "Kevin")])]
      = .ok (true,
          ⟨[("user", JSValue.obj 2 [("@id", JSValue.num 456), ("firstName", JSValue.str "Kevin")])],
            [], []⟩)
    ∧ true = anyOverwrite
        ⟨[("user", JSValue.obj 1 [("@id", JSValue.num 123), ("firstName", JSValue.str "Ryan")])],
          [], []⟩
        [("user", JSValue.obj 2 [("@id", JSValue.num 456), ("firstName", JSValue.str "Kevin")])] :=
  ⟨rfl,
    (reinitializeProvidedProps_spec
        ⟨[("user", JSValue.obj 1 [("@id", JSValue.num 123), ("firstName", JSValue.str "Ryan")])],
          [], []⟩).2.2
      [("user", JSValue.obj 2 [("@id", JSValue.num 456), ("firstName", JSValue.str "Kevin")])]
      true
      ⟨[("user", JSValue.obj 2 [("@id", JSValue.num 456), ("firstName", JSValue.str "Kevin")])],
        [], []⟩
      rfl⟩

/-- C7 (code bug): `reinitializeProvidedProps` throws a `TypeError` when a
patch entry's value is `null`: `typeof null === 'object'` lets
`findIdentifier` fall through to the property read `null['@id']`. -/
theorem reinitializeProvidedProps_null_throws :
    (ValueStore.init []).reinitializeProvidedProps [("x", JSValue.null)]
      = .error "TypeError" :=
  rfl

/-- C8: a value of `null` resolved at any tier is returned as `null` (with
`has` true), without falling through to a lower tier and without identifier
extraction; a name absent at every tier resolves to `undefined` (with `has`
false). -/
theorem get_null_vs_undefined (s : ValueStore) (name : String) :
    (objGet s.dirtyProps (normalizeModelName name) = .null →
      s.get name = .null ∧ s.has name = true)
    ∧ (objGet s.dirtyProps (normalizeModelName name) = .undefined →
        objGet s.pendingProps (normalizeModelName name) = .null →
        s.get name = .null ∧ s.has name = true)
    ∧ (objGet s.dirtyProps (normalizeModelName name) = .undefined →
        objGet s.pendingProps (normalizeModelName name) = .undefined →
        getDeepData s.props (normalizeModelName name) = .null →
        s.get name = .null ∧ s.has name = true)
    ∧ (objGet s.dirtyProps (normalizeModelName name) = .undefined →
        objGet s.pendingProps (normalizeModelName name) = .undefined →
        getDeepData s.props (normalizeModelName name) = .undefined →
        s.get name = .undefined ∧ s.has name = false) := by
  refine ⟨?_, ?_, ?_, ?_⟩
  · intro h
    have hg := get_dirty_hit s name (by rw [h]; rfl)
    rw [h] at hg
    exact ⟨hg, by unfold ValueStore.has; rw [hg]; rfl⟩
  · intro h1 h2
    have hg := get_pending_hit s name (by rw [h1]; rfl) (by rw [h2]; rfl)
    rw [h2] at hg
    exact ⟨hg, by unfold ValueStore.has; rw [hg]; rfl⟩
  · intro h1 h2 h3
    have hg := get_original_tier s name (by rw [h1]; rfl) (by rw [h2]; rfl)
    rw [originalResolve_null s.props (normalizeModelName name) h3] at hg
    exact ⟨hg, by unfold ValueStore.has; rw [hg]; rfl⟩
  · intro h1 h2 h3
    have hg := get_original_tier s name (by rw [h1]; rfl) (by rw [h2]; rfl)
    rw [originalResolve_undefined s.props (normalizeModelName name) h3] at hg
    exact ⟨hg, by unfold ValueStore.has; rw [hg]; rfl⟩

/-- Witness for C8 (the spec's P8 scenario): with original props `a ↦ null`,
`get("a")` is `null` and `has("a")` is true; with a fully absent key on the
same store, `get("b")` is `undefined` and `has("b")` is false. -/
theorem get_null_vs_undefined_witness :
    ((⟨[("a", JSValue.null)], [], []⟩ : ValueStore).get "a" = JSValue.null
      ∧ (⟨[("a", JSValue.null)], [], []⟩ : ValueStore).has "a" = true)
    ∧ ((⟨[("a", JSValue.null)], [], []⟩ : ValueStore).get "b" = JSValue.undefined
      ∧ (⟨[("a", JSValue.null)], [], []⟩ : ValueStore).has "b" = false) :=
  ⟨(get_null_vs_undefined ⟨[("a", JSValue.null)], [], []⟩ "a").2.2.1 rfl rfl rfl,
    (get_null_vs_undefined ⟨[("a", JSValue.null)], [], []⟩ "b").2.2.2 rfl rfl rfl⟩

/-- C9 counterexample: the state with dirty `\x7ba: 2\x7d` and pending `\x7ba: 1\x7d`
is reachable (set `a ↦ 1`, flush, then set `a ↦ 2` while the request is in
flight) and holds the name `a` in both maps, with no merge-back of a failed
send in progress. -/
theorem dirty_pending_overlap_reachable :
    Reachable (⟨[], [("a", JSValue.num 2)], [("a", JSValue.num 1)]⟩ : ValueStore)
      ∧ hasKey ([("a", JSValue.num 2)] : JSObject) "a" = true
      ∧ hasKey ([("a", JSValue.num 1)] : JSObject) "a" = true := by
  refine ⟨?_, rfl, rfl⟩
  have h0 : Reachable (ValueStore.init []) := Reachable.init []
  have h1 := Reachable.stepSet _ "a" (JSValue.num 1) h0
  have h2 := Reachable.stepFlush _ h1
  have h3 := Reachable.stepSet _ "a" (JSValue.num 2) h2
  exact h3

/-- C9 amended: a name can occur in both the dirty and the pending map
whenever `set` writes a name that is in flight, not only during the
merge-back of a failed send; whenever it does, the overlap is resolved with
dirty taking precedence: `get` resolves to the dirty value, and
`pushPendingPropsBackToDirty` keeps the dirty value. -/
theorem overlap_resolved_dirty_precedence (s : ValueStore) (name : String)
    (hd : strictEq (objGet s.dirtyProps (normalizeModelName name)) .undefined = false)
    (_hp : hasKey s.pendingProps (normalizeModelName name) = true) :
    s.get name = objGet s.dirtyProps (normalizeModelName name)
    ∧ objGet s.pushPendingPropsBackToDirty.dirtyProps (normalizeModelName name)
        = objGet s.dirtyProps (normalizeModelName name) := by
  constructor
  · exact get_dirty_hit s name hd
  · show objGet (objMerge s.pendingProps s.dirtyProps) _ = _
    rw [objGet_objMerge, if_pos (hasKey_of_objGet_ne_undefined _ _ hd)]

/-- Witness for amended C9: on the overlapping store with dirty `\x7ba: 2\x7d`
and pending `\x7ba: 1\x7d`, `get("a")` is `2` and the merge-back keeps `2`. -/
theorem overlap_resolved_dirty_precedence_witness :
    (⟨[], [("a", JSValue.num 2)], [("a", JSValue.num 1)]⟩ : ValueStore).get "a"
        = JSValue.num 2
      ∧ objGet (⟨[], [("a", JSValue.num 2)], [("a", JSValue.num 1)]⟩ :
          ValueStore).pushPendingPropsBackToDirty.dirtyProps "a" = JSValue.num 2 :=
  overlap_resolved_dirty_precedence
    ⟨[], [("a", JSValue.num 2)], [("a", JSValue.num 1)]⟩ "a" rfl rfl

/-- C10: for a top-level name absent from dirty and pending whose original
value is an object carrying the `@id` marker with identifier `v`,
`set(name, v)` compares `v` against the identifier `get` extracts — so it
returns `false` and leaves the store unchanged. -/
theorem set_identifier_noop (s : ValueStore) (name : String) (v : JSValue)
    (oid : Nat) (fields : JSObject)
    (htop : isPropNameTopLevel (normalizeModelName name) = true)
    (hd : objGet s.dirtyProps (normalizeModelName name) = .undefined)
    (hp : objGet s.pendingProps (normalizeModelName name) = .undefined)
    (hv : getDeepData s.props (normalizeModelName name) = .obj oid fields)
    (hid : objGet fields identifierKey = v)
    (hvu : strictEq v .undefined = false) :
    s.set name v = (false, s) := by
  have e := normalizeModelName_idem name
  have hg : s.get (normalizeModelName name) = v := by
    have hd' : objGet s.dirtyProps (normalizeModelName (normalizeModelName name)) = .undefined := by
      rw [e]; exact hd
    have hp' : objGet s.pendingProps (normalizeModelName (normalizeModelName name)) = .undefined := by
      rw [e]; exact hp
    have htop' : isPropNameTopLevel (normalizeModelName (normalizeModelName name)) = true := by
      rw [e]; exact htop
    have hv' : getDeepData s.props (normalizeModelName (normalizeModelName name))
        = .obj oid fields := by
      rw [e]; exact hv
    have hne : strictEq (objGet fields identifierKey) .undefined = false := by
      rw [hid]; exact hvu
    rw [get_extracts_from_original s (normalizeModelName name) oid fields hd' hp' htop' hv' hne]
    exact hid
  unfold ValueStore.set
  rw [hg, strictEq_refl v]
  rfl

/-- Witness for C10: with original props
`user ↦ \x7b"@id": 123, "firstName": "Ryan"\x7d` and empty dirty and pending
maps, `set("user", 123)` returns `false` and leaves the store unchanged. -/
theorem set_identifier_noop_witness :
    ValueStore.set
        ⟨[("user", JSValue.obj 1 [("@id", JSValue.num 123), ("firstName", JSValue.str "Ryan")])],
          [], []⟩ "user" (JSValue.num 123)
      = (false,
          ⟨[("user", JSValue.obj 1 [("@id", JSValue.num 123), ("firstName", JSValue.str "Ryan")])],
            [], []⟩) :=
  set_identifier_noop
    ⟨[("user", JSValue.obj 1 [("@id", JSValue.num 123), ("firstName", JSValue.str "Ryan")])],
      [], []⟩
    "user" (JSValue.num 123) 1
    [("@id", JSValue.num 123), ("firstName", JSValue.str "Ryan")]
    rfl rfl rfl rfl rfl rfl

end UX
